import Mathlib

/-!
A verification development for the `netl` interpreter: a scanner
(`src/logic/tokenizer.rs`), a recursive-descent parser
(`src/logic/ast.rs`) and a tree-walking evaluator
(`src/logic/exec.rs`) for a small imperative scripting language.

The Rust code is embedded shallowly:

* `Token` and `ASTNode` mirror the Rust enums of the same names.
* `tokenize` mirrors `tokenizer::tokenize`.  The Rust scanner calls
  `number.parse::<i32>().unwrap()`, which panics (aborts) when a digit
  run exceeds `i32::MAX`; panics are modelled as `Option.none`, so the
  embedded scanner returns `Option (List Token)`.  Rust's
  `char::is_alphabetic` / `is_alphanumeric` are Unicode predicates; the
  model uses the ASCII `Char.isAlpha` / `Char.isAlphanum`, which agree
  with them on every ASCII source text (all programs considered here).
* the `Parser` struct's methods are embedded as functions over a fixed
  token list `ts` and a cursor index `i` (the Rust `self.current`).
  `Result<T, String>` becomes `Except String T`; `self.tokens[self.current]`
  is modelled with `List.getD` whose default (`EndOfFile`) is never
  consulted for a scanner-produced token list, since such a list is
  non-empty and the cursor never passes its final index
  (`next_token` refuses to move past it, exactly as in the source).
  On success a parsing method returns the parsed node together with the
  new cursor position; the position is packaged with the facts that it
  strictly advanced and stays in bounds, which is precisely the reason
  the Rust parsing loops terminate.
* the `Interpreter` struct becomes explicit state passing: its
  `variables: HashMap<String, ASTNode>` field is modelled as an
  association list holding at most one binding per key (`env_insert`
  replaces any previous binding, as `HashMap::insert` does), and the
  lines printed by `println!` are accumulated in a list.  A Rust panic
  (including arithmetic aborts such as division by zero or overflow in
  a debug build) is modelled as `Except.error`; the interpreter returns
  the lines already printed alongside the outcome, since a panic does
  not roll printed output back.  Error strings in the model are fixed
  literals standing for the corresponding Rust panic/`Err` messages
  (the originals interpolate debug representations and indices).
-/

namespace Netl

/-- The token vocabulary of `ast.rs` (`enum Token`). -/
inductive Token where
  | Let
  | Fn
  | If
  | Else
  | IfElse
  | Equal
  | NotEqual
  | Plus
  | Minus
  | Asterisk
  | Slash
  | Modulo
  | Identifier (name : String)
  | Number (value : Int)
  | StringLiteral (value : String)
  | Print
  | LeftParenthesis
  | RightParenthesis
  | LeftBrace
  | RightBrace
  | LeftBracket
  | RightBracket
  | LessThan
  | GreaterThan
  | Comma
  | SemiColon
  | EndOfFile
  | Unknown
deriving DecidableEq, Repr

/-- The AST node shapes of `ast.rs` (`enum ASTNode`); `Box` indirections
are dropped and `Vec<Box<ASTNode>>` becomes `List ASTNode`. -/
inductive ASTNode where
  | Program (statements : List ASTNode)
  | Assignment (name : String) (value : ASTNode)
  | Variable (name : String) (value : ASTNode)
  | Print (expression : ASTNode)
  | Identifier (name : String)
  | Number (value : Int)
  | StringLiteral (value : String)
  | BinaryOperation (left : ASTNode) (operator : Token) (right : ASTNode)
  | If (condition : ASTNode) (thenStatements : List ASTNode)
  | IfElse (condition : ASTNode) (thenStatements : List ASTNode)
      (elseStatements : List ASTNode)

/-! ## Scanner (`tokenizer.rs`) -/

/-- The character class extending an identifier in `tokenize`:
`next_ch.is_alphanumeric() || next_ch == '_'`. -/
def is_ident_char (c : Char) : Bool := c.isAlphanum || c = '_'

/-- The numeric value of a digit run, as computed by Rust's
`str::parse::<i32>` on a string of decimal digits (no sign). -/
def digits_val (ds : List Char) : Nat :=
  ds.foldl (fun acc c => 10 * acc + (c.toNat - 48)) 0

/-- `i32::MAX`, the largest value `parse::<i32>` accepts for an
unsigned digit run. -/
def i32_max : Int := 2147483647

/-- The keyword table at the end of the identifier arm of `tokenize`:
`match identifier.as_str() { "let" => .., "print" => .., "fn" => ..,
"if" => .., "else" => .., "elif" => .., _ => Identifier }`. -/
def keyword_token (identifier : String) : Token :=
  if identifier = "let" then .Let
  else if identifier = "print" then .Print
  else if identifier = "fn" then .Fn
  else if identifier = "if" then .If
  else if identifier = "else" then .Else
  else if identifier = "elif" then .IfElse
  else .Identifier identifier

/-- One iteration of the scanner's `while let Some(ch) = iter.next()`
loop in `tokenizer::tokenize`, dispatching on the consumed character
`c` with the not-yet-consumed characters `rest`; the arms appear in
source order.  `none` models the panic of
`number.parse::<i32>().unwrap()` on an out-of-range digit run; an
iteration otherwise yields the token it pushes (`none` for skipped
whitespace) and the characters left for the next iteration, the latter
bundled with the fact that the iteration consumed nothing beyond `c`
and characters of `rest` (which is why the scanner loop terminates).
The string arm captures everything up to (not including) the next
quote and drops that quote; the identifier and number arms implement
the maximal munch of their inner `peek` loops via
`takeWhile`/`dropWhile`. -/
def tokenize_step (c : Char) (rest : List Char) :
    Option (Option Token × {r : List Char // r.length ≤ rest.length}) :=
  if c = ' ' ∨ c = '\t' ∨ c = '\n' ∨ c = '\r' then some (none, ⟨rest, le_refl _⟩)
  else if c = '=' then some (some .Equal, ⟨rest, le_refl _⟩)
  else if c = '!' then
    match rest with
    | '=' :: rest2 => some (some .NotEqual, ⟨rest2, by
        simp only [List.length_cons]; omega⟩)
    | r => some (some .Unknown, ⟨r, le_refl _⟩)
  else if c = '+' then some (some .Plus, ⟨rest, le_refl _⟩)
  else if c = '-' then some (some .Minus, ⟨rest, le_refl _⟩)
  else if c = '*' then some (some .Asterisk, ⟨rest, le_refl _⟩)
  else if c = '/' then some (some .Slash, ⟨rest, le_refl _⟩)
  else if c = '%' then some (some .Modulo, ⟨rest, le_refl _⟩)
  else if c = '(' then some (some .LeftParenthesis, ⟨rest, le_refl _⟩)
  else if c = ')' then some (some .RightParenthesis, ⟨rest, le_refl _⟩)
  else if c = '\x7b' then some (some .LeftBrace, ⟨rest, le_refl _⟩)
  else if c = '\x7d' then some (some .RightBrace, ⟨rest, le_refl _⟩)
  else if c = '[' then some (some .LeftBracket, ⟨rest, le_refl _⟩)
  else if c = ']' then some (some .RightBracket, ⟨rest, le_refl _⟩)
  else if c = '<' then some (some .LessThan, ⟨rest, le_refl _⟩)
  else if c = '>' then some (some .GreaterThan, ⟨rest, le_refl _⟩)
  else if c = ';' then some (some .SemiColon, ⟨rest, le_refl _⟩)
  else if c = ',' then some (some .Comma, ⟨rest, le_refl _⟩)
  else if c = '\x22' then
    some (some (.StringLiteral (String.mk (rest.takeWhile (fun ch => ch ≠ '\x22')))),
      ⟨(rest.dropWhile (fun ch => ch ≠ '\x22')).drop 1, by
        have h1 := (List.dropWhile_suffix
          (l := rest) (fun ch => decide (ch ≠ '\x22'))).sublist.length_le
        have h2 := List.length_drop 1
          (rest.dropWhile (fun ch => decide (ch ≠ '\x22')))
        omega⟩)
  else if c.isAlpha then
    some (some (keyword_token (String.mk (c :: rest.takeWhile is_ident_char))),
      ⟨rest.dropWhile is_ident_char,
        (List.dropWhile_suffix (l := rest) is_ident_char).sublist.length_le⟩)
  else if c.isDigit then
    if (digits_val (c :: rest.takeWhile Char.isDigit) : Int) ≤ i32_max then
      some (some (.Number (digits_val (c :: rest.takeWhile Char.isDigit))),
        ⟨rest.dropWhile Char.isDigit,
          (List.dropWhile_suffix (l := rest) Char.isDigit).sublist.length_le⟩)
    else none
  else some (some .Unknown, ⟨rest, le_refl _⟩)

/-- `tokenizer::tokenize`'s loop: run `tokenize_step` once per
iteration, prepending the token it pushes (if any) to the tokens of
the remaining iterations, and finish with the single `EndOfFile` token
pushed after the loop.  `none` propagates a number-parse panic. -/
def tokenizeChars : List Char → Option (List Token)
  | [] => some [.EndOfFile]
  | c :: rest =>
    match tokenize_step c rest with
    | none => none
    | some (none, ⟨rest2, _⟩) => tokenizeChars rest2
    | some (some t, ⟨rest2, _⟩) => (tokenizeChars rest2).map (t :: ·)
termination_by cs => cs.length
decreasing_by all_goals (simp only [List.length_cons]; omega)

/-- `pub fn tokenize(code: &str) -> Vec<Token>` applied to the source
text's character sequence. -/
def tokenize (code : String) : Option (List Token) := tokenizeChars code.data

/-- The proviso of the amended totality claim for the scanner: every
integer literal the scanner would parse fits in `i32`.  The predicate
walks the source like the scanner does — skipping a quote-delimited
string, skipping an identifier after a leading letter (so digits
inside an identifier are not literals), and otherwise checking each
maximal digit run — but performs no tokenization. -/
def digit_runs_fit : List Char → Bool
  | [] => true
  | c :: rest =>
    if c = '\x22' then digit_runs_fit ((rest.dropWhile (fun ch => ch ≠ '\x22')).drop 1)
    else if c = '!' then
      match rest with
      | '=' :: rest2 => digit_runs_fit rest2
      | r => digit_runs_fit r
    else if c.isAlpha then digit_runs_fit (rest.dropWhile is_ident_char)
    else if c.isDigit then
      decide ((digits_val (c :: rest.takeWhile Char.isDigit) : Int) ≤ i32_max) &&
        digit_runs_fit (rest.dropWhile Char.isDigit)
    else digit_runs_fit rest
termination_by cs => cs.length
decreasing_by
  all_goals simp only [List.length_cons]
  all_goals
    first
    | omega
    | (have h1 := (List.dropWhile_suffix
          (l := rest) (fun ch => decide (ch ≠ '\x22'))).sublist.length_le
       have h2 := List.length_drop 1
          (rest.dropWhile (fun ch => decide (ch ≠ '\x22')))
       omega)
    | (have h1 := (List.dropWhile_suffix
          (l := rest) is_ident_char).sublist.length_le
       omega)
    | (have h1 := (List.dropWhile_suffix
          (l := rest) Char.isDigit).sublist.length_le
       omega)

/-! ## Parser (`ast.rs`) -/

/-- A cursor position that strictly advanced past `i` and stayed inside
the token list: what every successful `Parser` method guarantees about
`self.current`, because each one consumes at least its leading token
and `next_token` refuses to move past the final index. -/
abbrev Pos (len i : Nat) := {j : Nat // i < j ∧ j < len}

/-- A cursor position at or after `i` (the block-body loops may consume
nothing when the closing brace is immediate). -/
abbrev PosLe (len i : Nat) := {j : Nat // i ≤ j ∧ j < len}

/-- `Parser::current_token`, i.e. `self.tokens[self.current].clone()`.
The default is never consulted on a scanner-produced token list (it is
non-empty and the cursor never passes its final index); on an
out-of-range index the Rust code would abort instead. -/
def current_token (ts : List Token) (i : Nat) : Token := ts.getD i .EndOfFile

/-- `Parser::next_token`: advance, refusing to move past the final
token. -/
def next_token (ts : List Token) (i : Nat) : Except String (Pos ts.length i) :=
  if h : i < ts.length - 1 then .ok ⟨i + 1, by omega⟩
  else .error "Unexpected end of file"

/-- `Parser::expect_token`. -/
def expect_token (ts : List Token) (token : Token) (i : Nat) :
    Except String (Pos ts.length i) :=
  if current_token ts i = token then next_token ts i
  else .error "Expected token mismatch"

/-- `Parser::expect_identifier`. -/
def expect_identifier (ts : List Token) (i : Nat) :
    Except String (String × Pos ts.length i) :=
  match current_token ts i with
  | .Identifier identifier => (next_token ts i).map (identifier, ·)
  | _ => .error "Expected identifier"

/-- The operator set of the `while` loop in `Parser::parse_expression`;
a single flat level containing every binary operator. -/
def is_expression_op (t : Token) : Prop :=
  t = .Plus ∨ t = .Minus ∨ t = .Equal ∨ t = .NotEqual ∨ t = .Asterisk ∨
    t = .Slash ∨ t = .Modulo ∨ t = .LessThan ∨ t = .GreaterThan

instance (t : Token) : Decidable (is_expression_op t) := by
  unfold is_expression_op; infer_instance

mutual

/-- The `while self.current_token() != Token::EndOfFile` loop of
`Parser::parse`, collecting the top-level statements. -/
def parse_program (ts : List Token) (i : Nat) : Except String (List ASTNode) :=
  if current_token ts i = .EndOfFile then .ok []
  else
    match parse_statement ts i with
    | .error e => .error e
    | .ok (statement, ⟨j, _hj⟩) =>
      match parse_program ts j with
      | .error e => .error e
      | .ok statements => .ok (statement :: statements)
termination_by (ts.length - i, 6)

/-- `Parser::parse_statement`: dispatch on the current token.  The
source has a second, unreachable `_ => self.parse_assignment()` arm
after the error arm; only the first matching arm (the error) applies. -/
def parse_statement (ts : List Token) (i : Nat) :
    Except String (ASTNode × Pos ts.length i) :=
  match current_token ts i with
  | .Let => parse_variable_declaration ts i
  | .Print => parse_print_statement ts i
  | .Identifier _ => parse_assignment ts i
  | .If => parse_if_statement ts i
  | _ => .error "Unexpected token"
termination_by (ts.length - i, 4)

/-- The `while self.current_token() != Token::RightBrace` body loops of
`Parser::parse_if_statement` (used for both branches); returns the
statements together with the position of the closing brace. -/
def parse_block (ts : List Token) (i : Nat) (h : i < ts.length) :
    Except String (List ASTNode × PosLe ts.length i) :=
  if current_token ts i = .RightBrace then .ok ([], ⟨i, by omega⟩)
  else
    match parse_statement ts i with
    | .error e => .error e
    | .ok (statement, ⟨j, hj⟩) =>
      match parse_block ts j hj.2 with
      | .error e => .error e
      | .ok (statements, ⟨k, hk⟩) => .ok (statement :: statements, ⟨k, by omega⟩)
termination_by (ts.length - i, 5)

/-- `Parser::parse_if_statement`. -/
def parse_if_statement (ts : List Token) (i : Nat) :
    Except String (ASTNode × Pos ts.length i) :=
  match expect_token ts .If i with
  | .error e => .error e
  | .ok ⟨j1, hj1⟩ =>
    match parse_expression ts j1 with
    | .error e => .error e
    | .ok (condition, ⟨j2, hj2⟩) =>
      match expect_token ts .LeftBrace j2 with
      | .error e => .error e
      | .ok ⟨j3, hj3⟩ =>
        match parse_block ts j3 hj3.2 with
        | .error e => .error e
        | .ok (statements, ⟨j4, hj4⟩) =>
          match expect_token ts .RightBrace j4 with
          | .error e => .error e
          | .ok ⟨j5, hj5⟩ =>
            if current_token ts j5 = .Else then
              match next_token ts j5 with
              | .error e => .error e
              | .ok ⟨j6, hj6⟩ =>
                match expect_token ts .LeftBrace j6 with
                | .error e => .error e
                | .ok ⟨j7, hj7⟩ =>
                  match parse_block ts j7 hj7.2 with
                  | .error e => .error e
                  | .ok (else_statements, ⟨j8, hj8⟩) =>
                    match expect_token ts .RightBrace j8 with
                    | .error e => .error e
                    | .ok ⟨j9, hj9⟩ =>
                      .ok (.IfElse condition statements else_statements,
                        ⟨j9, by omega⟩)
            else .ok (.If condition statements, ⟨j5, by omega⟩)
termination_by (ts.length - i, 3)

/-- `Parser::parse_variable_declaration`:
`'let' identifier '=' expression ';'`. -/
def parse_variable_declaration (ts : List Token) (i : Nat) :
    Except String (ASTNode × Pos ts.length i) :=
  match expect_token ts .Let i with
  | .error e => .error e
  | .ok ⟨j1, hj1⟩ =>
    match expect_identifier ts j1 with
    | .error e => .error e
    | .ok (identifier, ⟨j2, hj2⟩) =>
      match expect_token ts .Equal j2 with
      | .error e => .error e
      | .ok ⟨j3, hj3⟩ =>
        match parse_expression ts j3 with
        | .error e => .error e
        | .ok (value, ⟨j4, hj4⟩) =>
          match expect_token ts .SemiColon j4 with
          | .error e => .error e
          | .ok ⟨j5, hj5⟩ => .ok (.Variable identifier value, ⟨j5, by omega⟩)

/-- `Parser::parse_print_statement`: `'print' expression ';'`. -/
def parse_print_statement (ts : List Token) (i : Nat) :
    Except String (ASTNode × Pos ts.length i) :=
  match expect_token ts .Print i with
  | .error e => .error e
  | .ok ⟨j1, hj1⟩ =>
    match parse_expression ts j1 with
    | .error e => .error e
    | .ok (expression, ⟨j2, hj2⟩) =>
      match expect_token ts .SemiColon j2 with
      | .error e => .error e
      | .ok ⟨j3, hj3⟩ => .ok (.Print expression, ⟨j3, by omega⟩)

/-- `Parser::parse_assignment`: `identifier '=' expression ';'`. -/
def parse_assignment (ts : List Token) (i : Nat) :
    Except String (ASTNode × Pos ts.length i) :=
  match expect_identifier ts i with
  | .error e => .error e
  | .ok (identifier, ⟨j1, hj1⟩) =>
    match expect_token ts .Equal j1 with
    | .error e => .error e
    | .ok ⟨j2, hj2⟩ =>
      match parse_expression ts j2 with
      | .error e => .error e
      | .ok (expression, ⟨j3, hj3⟩) =>
        match expect_token ts .SemiColon j3 with
        | .error e => .error e
        | .ok ⟨j4, hj4⟩ => .ok (.Assignment identifier expression, ⟨j4, by omega⟩)

/-- `Parser::parse_expression`: one leading term, then the flat
left-associative operator loop. -/
def parse_expression (ts : List Token) (i : Nat) :
    Except String (ASTNode × Pos ts.length i) :=
  match parse_term ts i with
  | .error e => .error e
  | .ok (left_node, ⟨j, hj⟩) =>
    match parse_expression_ops ts left_node j hj.2 with
    | .error e => .error e
    | .ok (node, ⟨k, hk⟩) => .ok (node, ⟨k, by omega⟩)
termination_by (ts.length - i, 2)

/-- The `while` loop of `Parser::parse_expression`: as long as the
current token is one of the nine binary operators, consume it, parse
the next term, and fold left-associatively into `left_node`. -/
def parse_expression_ops (ts : List Token) (left_node : ASTNode) (i : Nat)
    (h : i < ts.length) : Except String (ASTNode × PosLe ts.length i) :=
  if is_expression_op (current_token ts i) then
    match next_token ts i with
    | .error e => .error e
    | .ok ⟨j, hj⟩ =>
      match parse_term ts j with
      | .error e => .error e
      | .ok (right_node, ⟨k, hk⟩) =>
        match parse_expression_ops ts
            (.BinaryOperation left_node (current_token ts i) right_node) k hk.2 with
        | .error e => .error e
        | .ok (node, ⟨m, hm⟩) => .ok (node, ⟨m, by omega⟩)
  else .ok (left_node, ⟨i, by omega⟩)
termination_by (ts.length - i, 0)

/-- `Parser::parse_term`: one leading factor, then the `==`/`!=` loop
(the grammar's second, term-level occurrence of the equality
operators). -/
def parse_term (ts : List Token) (i : Nat) :
    Except String (ASTNode × Pos ts.length i) :=
  match parse_factor ts i with
  | .error e => .error e
  | .ok (left_node, ⟨j, hj⟩) =>
    match parse_term_ops ts left_node j hj.2 with
    | .error e => .error e
    | .ok (node, ⟨k, hk⟩) => .ok (node, ⟨k, by omega⟩)
termination_by (ts.length - i, 1)

/-- The `while` loop of `Parser::parse_term`: fold further factors
joined by `==` or `!=` left-associatively into `left_node`. -/
def parse_term_ops (ts : List Token) (left_node : ASTNode) (i : Nat)
    (h : i < ts.length) : Except String (ASTNode × PosLe ts.length i) :=
  if current_token ts i = .Equal ∨ current_token ts i = .NotEqual then
    match next_token ts i with
    | .error e => .error e
    | .ok ⟨j, hj⟩ =>
      match parse_factor ts j with
      | .error e => .error e
      | .ok (right_node, ⟨k, hk⟩) =>
        match parse_term_ops ts
            (.BinaryOperation left_node (current_token ts i) right_node) k hk.2 with
        | .error e => .error e
        | .ok (node, ⟨m, hm⟩) => .ok (node, ⟨m, by omega⟩)
  else .ok (left_node, ⟨i, by omega⟩)
termination_by (ts.length - i, 0)

/-- `Parser::parse_factor`: number, string or identifier literal, or a
parenthesised expression. -/
def parse_factor (ts : List Token) (i : Nat) :
    Except String (ASTNode × Pos ts.length i) :=
  match current_token ts i with
  | .Number value => (next_token ts i).map (ASTNode.Number value, ·)
  | .StringLiteral value => (next_token ts i).map (ASTNode.StringLiteral value, ·)
  | .Identifier value => (next_token ts i).map (ASTNode.Identifier value, ·)
  | .LeftParenthesis =>
    match next_token ts i with
    | .error e => .error e
    | .ok ⟨j, hj⟩ =>
      match parse_expression ts j with
      | .error e => .error e
      | .ok (expression, ⟨k, hk⟩) =>
        match expect_token ts .RightParenthesis k with
        | .error e => .error e
        | .ok ⟨m, hm⟩ => .ok (expression, ⟨m, by omega⟩)
  | _ => .error "Unexpected token"
termination_by (ts.length - i, 0)

end

/-- `pub fn parse(tokens: Vec<Token>) -> Result<ASTNode, String>`:
run the statement loop from index `0` and wrap the result in
`Program`. -/
def parse (ts : List Token) : Except String ASTNode :=
  (parse_program ts 0).map .Program

/-! ## Evaluator (`exec.rs`) -/

/-- The `variables: HashMap<String, ASTNode>` field of `Interpreter`,
as an association list with at most one binding per key. -/
abbrev Env := List (String × ASTNode)

/-- `HashMap::insert`: overwrite any existing binding for `key`. -/
def env_insert (env : Env) (key : String) (val : ASTNode) : Env :=
  (key, val) :: env.filter (fun p => p.1 ≠ key)

/-- `i32::MIN`, the lower bound of the evaluator's machine integers. -/
def i32_min : Int := -2147483648

/-- The `i32` range; a Rust debug build aborts ("attempt to … with
overflow") when an arithmetic result falls outside it. -/
def in_i32 (n : Int) : Prop := i32_min ≤ n ∧ n ≤ i32_max

instance (n : Int) : Decidable (in_i32 n) := by unfold in_i32; infer_instance

/-- `Interpreter::evaluate_addition`: `i32 + i32` for two `Number`
nodes, a panic (type mismatch or debug-build overflow) otherwise. -/
def evaluate_addition (left right : ASTNode) : Except String ASTNode :=
  match left, right with
  | .Number left_value, .Number right_value =>
    if in_i32 (left_value + right_value) then
      .ok (.Number (left_value + right_value))
    else .error "attempt to add with overflow"
  | _, _ => .error "Cannot add"

/-- `Interpreter::evaluate_subtraction`. -/
def evaluate_subtraction (left right : ASTNode) : Except String ASTNode :=
  match left, right with
  | .Number left_value, .Number right_value =>
    if in_i32 (left_value - right_value) then
      .ok (.Number (left_value - right_value))
    else .error "attempt to subtract with overflow"
  | _, _ => .error "Cannot subtract"

/-- `Interpreter::evaluate_multiplication`. -/
def evaluate_multiplication (left right : ASTNode) : Except String ASTNode :=
  match left, right with
  | .Number left_value, .Number right_value =>
    if in_i32 (left_value * right_value) then
      .ok (.Number (left_value * right_value))
    else .error "attempt to multiply with overflow"
  | _, _ => .error "Cannot multiply"

/-- `Interpreter::evaluate_division`: Rust `i32 /` truncates toward
zero and aborts on a zero divisor or on `i32::MIN / -1`. -/
def evaluate_division (left right : ASTNode) : Except String ASTNode :=
  match left, right with
  | .Number left_value, .Number right_value =>
    if right_value = 0 then .error "attempt to divide by zero"
    else if left_value = i32_min ∧ right_value = -1 then
      .error "attempt to divide with overflow"
    else .ok (.Number (Int.tdiv left_value right_value))
  | _, _ => .error "Cannot divide"

/-- `Interpreter::evaluate_modulo`: Rust `i32 %` is the truncated
remainder and aborts on a zero divisor or on `i32::MIN % -1`. -/
def evaluate_modulo (left right : ASTNode) : Except String ASTNode :=
  match left, right with
  | .Number left_value, .Number right_value =>
    if right_value = 0 then
      .error "attempt to calculate the remainder with a divisor of zero"
    else if left_value = i32_min ∧ right_value = -1 then
      .error "attempt to calculate the remainder with overflow"
    else .ok (.Number (Int.tmod left_value right_value))
  | _, _ => .error "Cannot modulo"

/-- `Interpreter::evaluate_equal`: `1` when the two numbers agree,
`0` otherwise; a panic on any other operand shapes. -/
def evaluate_equal (left right : ASTNode) : Except String ASTNode :=
  match left, right with
  | .Number left_value, .Number right_value =>
    if left_value = right_value then .ok (.Number 1) else .ok (.Number 0)
  | _, _ => .error "Cannot compare"

/-- `Interpreter::evaluate_not_equal`. -/
def evaluate_not_equal (left right : ASTNode) : Except String ASTNode :=
  match left, right with
  | .Number left_value, .Number right_value =>
    if left_value ≠ right_value then .ok (.Number 1) else .ok (.Number 0)
  | _, _ => .error "Cannot compare"

/-- `Interpreter::evaluate_binary_operation`: operator dispatch.  Note
the source has no arm for `LessThan` or `GreaterThan`; they fall into
the catch-all `panic!("Unexpected operator")`. -/
def evaluate_binary_operation (left : ASTNode) (operator : Token)
    (right : ASTNode) : Except String ASTNode :=
  match operator with
  | .Plus => evaluate_addition left right
  | .Minus => evaluate_subtraction left right
  | .Asterisk => evaluate_multiplication left right
  | .Slash => evaluate_division left right
  | .Modulo => evaluate_modulo left right
  | .Equal => evaluate_equal left right
  | .NotEqual => evaluate_not_equal left right
  | _ => .error "Unexpected operator"

/-- `Interpreter::evaluate_expression`.  The `variables` map is read
but never written here, so it is a plain argument. -/
def evaluate_expression (env : Env) : ASTNode → Except String ASTNode
  | .BinaryOperation left operator right => do
    let left_value ← evaluate_expression env left
    let right_value ← evaluate_expression env right
    evaluate_binary_operation left_value operator right_value
  | .Identifier identifier =>
    match List.lookup identifier env with
    | some v => .ok v
    | none => .error ("Undefined variable: " ++ identifier)
  | .Number value => .ok (.Number value)
  | .StringLiteral value => .ok (.StringLiteral value)
  | _ => .error "Unexpected AST node"

/-- `Interpreter::stringify_value`: numbers render in decimal, strings
as their raw content; anything else is a panic. -/
def stringify_value : ASTNode → Except String String
  | .Number value => .ok (toString value)
  | .StringLiteral value => .ok value
  | _ => .error "Unexpected AST node"

mutual

/-- `Interpreter::interpret` (statement execution), with the printed
lines accumulated in `out`.  The result keeps the lines printed so far
even when a statement panics, since printing is an irreversible side
effect.  Note the dispatch has no arm for `If` or `IfElse`: like every
other non-statement node they fall into the catch-all
`panic!("Unexpected AST node")`. -/
def interpret (env : Env) (out : List String) :
    ASTNode → Except String Env × List String
  | .Program statements => interpret_statements env out statements
  | .Variable identifier value =>
    match evaluate_expression env value with
    | .ok evaluated_value => (.ok (env_insert env identifier evaluated_value), out)
    | .error e => (.error e, out)
  | .Assignment identifier value =>
    match evaluate_expression env value with
    | .ok evaluated_value => (.ok (env_insert env identifier evaluated_value), out)
    | .error e => (.error e, out)
  | .Print expression =>
    match evaluate_expression env expression with
    | .ok evaluated_expression =>
      match stringify_value evaluated_expression with
      | .ok line => (.ok env, out ++ [line])
      | .error e => (.error e, out)
    | .error e => (.error e, out)
  | _ => (.error "Unexpected AST node", out)

/-- The `for statement in statements.iter()` loop of the `Program` arm
of `Interpreter::interpret`; a panic aborts the remaining statements. -/
def interpret_statements (env : Env) (out : List String) :
    List ASTNode → Except String Env × List String
  | [] => (.ok env, out)
  | statement :: rest =>
    match interpret env out statement with
    | (.ok env2, out2) => interpret_statements env2 out2 rest
    | (.error e, out2) => (.error e, out2)

end

/-- The value shapes the specification allows in the environment: a
number literal or a string literal, nothing else. -/
def is_literal_value : ASTNode → Prop
  | .Number _ => True
  | .StringLiteral _ => True
  | _ => False

/-- The environment invariant of the specification: every stored value
is a number literal or a string literal. -/
def env_invariant (env : Env) : Prop := ∀ p ∈ env, is_literal_value p.2

/-! ## Character-class facts about the scanner's dispatch -/

/-- An ASCII decimal digit is not a letter. -/
theorem isAlpha_eq_false_of_isDigit (c : Char) (h : c.isDigit = true) :
    c.isAlpha = false := by
  simp only [Char.isDigit, Bool.and_eq_true, decide_eq_true_eq, ge_iff_le] at h
  have h2 : c.val.toNat ≤ 57 := h.2
  simp only [Char.isAlpha, Char.isUpper, Char.isLower, Bool.or_eq_false_iff,
    Bool.and_eq_false_iff, ge_iff_le, decide_eq_false_iff_not, not_le]
  refine ⟨Or.inl ?_, Or.inl ?_⟩
  · intro hc
    have hc' : 65 ≤ c.val.toNat := hc
    omega
  · intro hc
    have hc' : 97 ≤ c.val.toNat := hc
    omega

/-- A letter matches none of the scanner's earlier (whitespace,
punctuation, quote) arms. -/
theorem alpha_ne_marks (c : Char) (h : c.isAlpha = true) :
    ¬(c = ' ' ∨ c = '\t' ∨ c = '\n' ∨ c = '\r') ∧ c ≠ '=' ∧ c ≠ '!' ∧
    c ≠ '+' ∧ c ≠ '-' ∧ c ≠ '*' ∧ c ≠ '/' ∧ c ≠ '%' ∧ c ≠ '(' ∧ c ≠ ')' ∧
    c ≠ '\x7b' ∧ c ≠ '\x7d' ∧ c ≠ '[' ∧ c ≠ ']' ∧ c ≠ '<' ∧ c ≠ '>' ∧
    c ≠ ';' ∧ c ≠ ',' ∧ c ≠ '\x22' := by
  refine ⟨?_, ?_, ?_, ?_, ?_, ?_, ?_, ?_, ?_, ?_, ?_, ?_, ?_, ?_, ?_, ?_,
    ?_, ?_, ?_⟩
  all_goals (rintro (rfl | rfl | rfl | rfl) <;> exact absurd h (by decide))

/-- A digit matches none of the scanner's earlier arms (including the
letter arm). -/
theorem digit_ne_marks (c : Char) (h : c.isDigit = true) :
    ¬(c = ' ' ∨ c = '\t' ∨ c = '\n' ∨ c = '\r') ∧ c ≠ '=' ∧ c ≠ '!' ∧
    c ≠ '+' ∧ c ≠ '-' ∧ c ≠ '*' ∧ c ≠ '/' ∧ c ≠ '%' ∧ c ≠ '(' ∧ c ≠ ')' ∧
    c ≠ '\x7b' ∧ c ≠ '\x7d' ∧ c ≠ '[' ∧ c ≠ ']' ∧ c ≠ '<' ∧ c ≠ '>' ∧
    c ≠ ';' ∧ c ≠ ',' ∧ c ≠ '\x22' ∧ c.isAlpha = false := by
  refine ⟨?_, ?_, ?_, ?_, ?_, ?_, ?_, ?_, ?_, ?_, ?_, ?_, ?_, ?_, ?_, ?_,
    ?_, ?_, ?_, isAlpha_eq_false_of_isDigit c h⟩
  all_goals (rintro (rfl | rfl | rfl | rfl) <;> exact absurd h (by decide))

/-- The scanner's iteration on a leading letter: maximal munch of
identifier characters, then the keyword table. -/
theorem tokenize_step_alpha (c : Char) (rest : List Char)
    (h : c.isAlpha = true) :
    tokenize_step c rest =
      some (some (keyword_token (String.mk (c :: rest.takeWhile is_ident_char))),
        ⟨rest.dropWhile is_ident_char,
          (List.dropWhile_suffix is_ident_char).sublist.length_le⟩) := by
  obtain ⟨hws, h1, h2, h3, h4, h5, h6, h7, h8, h9, h10, h11, h12, h13, h14,
    h15, h16, h17, h18⟩ := alpha_ne_marks c h
  simp only [tokenize_step, hws, h1, h2, h3, h4, h5, h6, h7, h8, h9, h10,
    h11, h12, h13, h14, h15, h16, h17, h18, h, if_false, if_true, ite_false,
    ite_true]

/-- The scanner's iteration on a leading digit whose maximal digit run
fits in `i32`: emit the parsed number token. -/
theorem tokenize_step_digit (c : Char) (rest : List Char)
    (h : c.isDigit = true)
    (hfit : (digits_val (c :: rest.takeWhile Char.isDigit) : Int) ≤ i32_max) :
    tokenize_step c rest =
      some (some (.Number (digits_val (c :: rest.takeWhile Char.isDigit))),
        ⟨rest.dropWhile Char.isDigit,
          (List.dropWhile_suffix Char.isDigit).sublist.length_le⟩) := by
  obtain ⟨hws, h1, h2, h3, h4, h5, h6, h7, h8, h9, h10, h11, h12, h13, h14,
    h15, h16, h17, h18, ha⟩ := digit_ne_marks c h
  simp only [tokenize_step, hws, h1, h2, h3, h4, h5, h6, h7, h8, h9, h10,
    h11, h12, h13, h14, h15, h16, h17, h18, h, ha, hfit, if_false, if_true,
    ite_false, ite_true, Bool.false_eq_true]

/-- The scanner's iteration on a leading digit whose maximal digit run
exceeds `i32::MAX`: the `parse::<i32>().unwrap()` panic. -/
theorem tokenize_step_digit_overflow (c : Char) (rest : List Char)
    (h : c.isDigit = true)
    (hfit : ¬(digits_val (c :: rest.takeWhile Char.isDigit) : Int) ≤ i32_max) :
    tokenize_step c rest = none := by
  obtain ⟨hws, h1, h2, h3, h4, h5, h6, h7, h8, h9, h10, h11, h12, h13, h14,
    h15, h16, h17, h18, ha⟩ := digit_ne_marks c h
  simp only [tokenize_step, hws, h1, h2, h3, h4, h5, h6, h7, h8, h9, h10,
    h11, h12, h13, h14, h15, h16, h17, h18, h, ha, hfit, if_false, if_true,
    ite_false, ite_true, Bool.false_eq_true]

/-! ## Scanner runs: identifiers and number literals -/

/-- Unfolding the scanner at a leading letter. -/
theorem tokenizeChars_cons_alpha (c : Char) (rest : List Char)
    (h : c.isAlpha = true) :
    tokenizeChars (c :: rest) =
      (tokenizeChars (rest.dropWhile is_ident_char)).map
        (keyword_token (String.mk (c :: rest.takeWhile is_ident_char)) :: ·) := by
  rw [tokenizeChars.eq_def]
  simp only [tokenize_step_alpha c rest h]

/-- Unfolding the scanner at a leading digit of an in-range literal. -/
theorem tokenizeChars_cons_digit (c : Char) (rest : List Char)
    (h : c.isDigit = true)
    (hfit : (digits_val (c :: rest.takeWhile Char.isDigit) : Int) ≤ i32_max) :
    tokenizeChars (c :: rest) =
      (tokenizeChars (rest.dropWhile Char.isDigit)).map
        (.Number (digits_val (c :: rest.takeWhile Char.isDigit)) :: ·) := by
  rw [tokenizeChars.eq_def]
  simp only [tokenize_step_digit c rest h hfit]

/-- Unfolding the scanner at a leading digit of an overflowing literal:
the run aborts. -/
theorem tokenizeChars_cons_digit_overflow (c : Char) (rest : List Char)
    (h : c.isDigit = true)
    (hfit : ¬(digits_val (c :: rest.takeWhile Char.isDigit) : Int) ≤ i32_max) :
    tokenizeChars (c :: rest) = none := by
  rw [tokenizeChars.eq_def]
  simp only [tokenize_step_digit_overflow c rest h hfit]

/-- Scanning a maximal letter-started word: the word's characters are
munched greedily, the completed text goes through the keyword table,
and scanning resumes after the word. -/
theorem tokenizeChars_word (c : Char) (cs rest : List Char)
    (h : c.isAlpha = true) (hcs : ∀ x ∈ cs, is_ident_char x = true)
    (hrest : ∀ d, rest.head? = some d → is_ident_char d = false) :
    tokenizeChars (c :: (cs ++ rest)) =
      (tokenizeChars rest).map (keyword_token (String.mk (c :: cs)) :: ·) := by
  rw [tokenizeChars_cons_alpha c _ h]
  have ht : (cs ++ rest).takeWhile is_ident_char =
      cs ++ rest.takeWhile is_ident_char := List.takeWhile_append_of_pos hcs
  have hd : (cs ++ rest).dropWhile is_ident_char =
      rest.dropWhile is_ident_char := List.dropWhile_append_of_pos hcs
  cases rest with
  | nil =>
    simp [List.takeWhile_eq_self_iff.mpr hcs, List.dropWhile_eq_nil_iff.mpr hcs]
  | cons d ds =>
    have hdd := hrest d rfl
    rw [ht, hd, List.takeWhile_cons, List.dropWhile_cons]
    simp [hdd]

/-- Scanning a maximal digit run that fits in `i32`: the digits are
munched greedily, their value becomes a number token, and scanning
resumes after the run. -/
theorem tokenizeChars_number (c : Char) (cs rest : List Char)
    (h : c.isDigit = true) (hcs : ∀ x ∈ cs, x.isDigit = true)
    (hrest : ∀ d, rest.head? = some d → d.isDigit = false)
    (hfit : (digits_val (c :: cs) : Int) ≤ i32_max) :
    tokenizeChars (c :: (cs ++ rest)) =
      (tokenizeChars rest).map (.Number (digits_val (c :: cs)) :: ·) := by
  have ht : (cs ++ rest).takeWhile Char.isDigit =
      cs ++ rest.takeWhile Char.isDigit := List.takeWhile_append_of_pos hcs
  have hd : (cs ++ rest).dropWhile Char.isDigit =
      rest.dropWhile Char.isDigit := List.dropWhile_append_of_pos hcs
  have hb : rest.takeWhile Char.isDigit = [] ∧
      rest.dropWhile Char.isDigit = rest := by
    cases rest with
    | nil => simp
    | cons d ds =>
      have hdd := hrest d rfl
      rw [List.takeWhile_cons, List.dropWhile_cons]
      simp [hdd]
  rw [tokenizeChars_cons_digit c _ h (by rw [ht, hb.1, List.append_nil]; exact hfit)]
  rw [ht, hd, hb.1, hb.2, List.append_nil]

/-- A single `=` always scans to one `Equal` token, regardless of what
follows. -/
theorem tokenizeChars_cons_equals (r : List Char) :
    tokenizeChars ('=' :: r) = (tokenizeChars r).map (.Equal :: ·) := by
  rw [tokenizeChars.eq_def]
  simp +decide [tokenize_step]

/-- The boundary condition of a maximal run, specialised to a known
next character. -/
theorem head_not_ident (d0 : Char) (h : is_ident_char d0 = false)
    (l : List Char) : ∀ d, (d0 :: l).head? = some d → is_ident_char d = false :=
  fun _ hd => Option.some.inj hd ▸ h

/-- The boundary condition of a maximal digit run, specialised to a
known next character. -/
theorem head_not_digit (d0 : Char) (h : d0.isDigit = false)
    (l : List Char) : ∀ d, (d0 :: l).head? = some d → d.isDigit = false :=
  fun _ hd => Option.some.inj hd ▸ h

/-! ## Claim C2 -/

/-- C2, counterexample: the claim says the lexer consumes `==` greedily
as a single equality token, distinct from the assignment marker
produced by a lone `=`.  In fact `==` scans to TWO tokens (besides the
end-of-input token), and they are the very same `Equal` token a lone
`=` produces — the token vocabulary has no separate assignment and
equality markers at all. -/
theorem claim_C2_counterexample :
    tokenize "==" = some [.Equal, .Equal, .EndOfFile] ∧
    tokenize "=" = some [.Equal, .EndOfFile] := by
  constructor <;> simp +decide [tokenize, tokenizeChars, tokenize_step]

/-- C2, amended: the lexer emits one `Equal` token per `=` character:
a lone `=` yields one `Equal` token and the two-character sequence `==`
yields two consecutive `Equal` tokens; assignment and equality share
the same token and are distinguished only by how many `Equal` tokens
appear. -/
theorem claim_C2_amended (rest : List Char) :
    tokenizeChars ('=' :: rest) = (tokenizeChars rest).map (.Equal :: ·) ∧
    tokenizeChars ('=' :: '=' :: rest) =
      (tokenizeChars rest).map (.Equal :: .Equal :: ·) := by
  refine ⟨tokenizeChars_cons_equals rest, ?_⟩
  rw [tokenizeChars_cons_equals, tokenizeChars_cons_equals, Option.map_map]
  rfl

/-! ## Claim C4 -/

/-- C4: the specification says `<` and `>` on two numbers produce the
numbers 1/0.  The evaluator's operator dispatch
(`Interpreter::evaluate_binary_operation`) has no arm for `LessThan`
or `GreaterThan`, so every comparison — even between two number
literals — hits the catch-all `panic!("Unexpected operator")`: the
program `print 1 < 2;` scans and parses but aborts at evaluation with
no output instead of printing `1`. -/
theorem claim_C4_comparison_panics :
    (∀ a b : Int,
      evaluate_binary_operation (.Number a) .LessThan (.Number b) =
        .error "Unexpected operator" ∧
      evaluate_binary_operation (.Number a) .GreaterThan (.Number b) =
        .error "Unexpected operator") ∧
    tokenize "print 1 < 2;" = some [.Print, .Number 1, .LessThan, .Number 2,
      .SemiColon, .EndOfFile] ∧
    parse [.Print, .Number 1, .LessThan, .Number 2, .SemiColon, .EndOfFile] =
      .ok (.Program [.Print (.BinaryOperation (.Number 1) .LessThan (.Number 2))]) ∧
    interpret [] []
        (.Program [.Print (.BinaryOperation (.Number 1) .LessThan (.Number 2))]) =
      (.error "Unexpected operator", []) := by
  refine ⟨fun a b => ⟨rfl, rfl⟩, ?_, ?_, ?_⟩
  · simp +decide [tokenize, tokenizeChars, tokenize_step, digits_val, i32_max]
  · rw [parse, parse_program.eq_def]
    simp [parse_program.eq_def, parse_statement.eq_def,
      parse_print_statement.eq_def, parse_expression.eq_def, expect_token,
      expect_identifier, parse_term.eq_def, parse_factor.eq_def,
      parse_term_ops.eq_def, parse_expression_ops.eq_def, is_expression_op,
      current_token, next_token, Except.map]
  · simp [interpret.eq_def, interpret_statements.eq_def, evaluate_expression,
      evaluate_binary_operation, bind, Except.bind]

/-! ## Claim C8 -/

/-- C8: `/` or `%` with numeric left operand and zero right operand is
a runtime fault (the Rust division/remainder panic), not a silent trap
or wrap-around.  On `let x = 10; let y = 0; print x / y;` the run
aborts with no output line for the print statement; and in
`print 7; let y = 0; print 1 / y;` the line printed before the fault
is kept — printed output is not rolled back. -/
theorem claim_C8_divide_by_zero :
    (∀ a : Int,
      evaluate_division (.Number a) (.Number 0) =
        .error "attempt to divide by zero" ∧
      evaluate_modulo (.Number a) (.Number 0) =
        .error "attempt to calculate the remainder with a divisor of zero") ∧
    tokenize "let x = 10; let y = 0; print x / y;" =
      some [.Let, .Identifier "x", .Equal, .Number 10, .SemiColon,
        .Let, .Identifier "y", .Equal, .Number 0, .SemiColon,
        .Print, .Identifier "x", .Slash, .Identifier "y", .SemiColon,
        .EndOfFile] ∧
    parse [.Let, .Identifier "x", .Equal, .Number 10, .SemiColon,
        .Let, .Identifier "y", .Equal, .Number 0, .SemiColon,
        .Print, .Identifier "x", .Slash, .Identifier "y", .SemiColon,
        .EndOfFile] =
      .ok (.Program [.Variable "x" (.Number 10), .Variable "y" (.Number 0),
        .Print (.BinaryOperation (.Identifier "x") .Slash (.Identifier "y"))]) ∧
    interpret [] []
        (.Program [.Variable "x" (.Number 10), .Variable "y" (.Number 0),
          .Print (.BinaryOperation (.Identifier "x") .Slash (.Identifier "y"))]) =
      (.error "attempt to divide by zero", []) ∧
    interpret [] []
        (.Program [.Print (.Number 7), .Variable "y" (.Number 0),
          .Print (.BinaryOperation (.Number 1) .Slash (.Identifier "y"))]) =
      (.error "attempt to divide by zero", ["7"]) := by
  refine ⟨fun a => ⟨by simp [evaluate_division], by simp [evaluate_modulo]⟩,
    ?_, ?_, ?_, ?_⟩
  · simp +decide [tokenize, tokenizeChars, tokenize_step, is_ident_char,
      keyword_token, digits_val, i32_max]
  · rw [parse, parse_program.eq_def]
    simp [parse_program.eq_def, parse_statement.eq_def,
      parse_print_statement.eq_def, parse_variable_declaration.eq_def,
      parse_expression.eq_def, expect_token, expect_identifier,
      parse_term.eq_def, parse_factor.eq_def, parse_term_ops.eq_def,
      parse_expression_ops.eq_def, is_expression_op, current_token,
      next_token, Except.map]
  · simp +decide [interpret.eq_def, interpret_statements.eq_def,
      evaluate_expression, evaluate_binary_operation, evaluate_division,
      stringify_value, env_insert, List.lookup, bind, Except.bind]
  · simp +decide [interpret.eq_def, interpret_statements.eq_def,
      evaluate_expression, evaluate_binary_operation, evaluate_division,
      stringify_value, env_insert, List.lookup, bind, Except.bind]

/-! ## Claim C1 -/

/-- C1: the claim (with the specification) says executing `If`/`IfElse`
evaluates the condition and runs the appropriate branch, so that
`let x = 1; if x { print "yes"; } else { print "no"; }` completes and
prints `yes`.  The program scans and parses exactly as described, but
the statement dispatch of `Interpreter::interpret` has no arm for `If`
or `IfElse`: the conditional falls into the catch-all
`panic!("Unexpected AST node")`, so the run aborts with no output at
all instead of printing `yes`. -/
theorem claim_C1_if_programs_panic :
    tokenize "let x = 1; if x \x7b print \"yes\"; \x7d else \x7b print \"no\"; \x7d" =
      some [.Let, .Identifier "x", .Equal, .Number 1, .SemiColon,
        .If, .Identifier "x", .LeftBrace, .Print, .StringLiteral "yes",
        .SemiColon, .RightBrace, .Else, .LeftBrace, .Print,
        .StringLiteral "no", .SemiColon, .RightBrace, .EndOfFile] ∧
    parse [.Let, .Identifier "x", .Equal, .Number 1, .SemiColon,
        .If, .Identifier "x", .LeftBrace, .Print, .StringLiteral "yes",
        .SemiColon, .RightBrace, .Else, .LeftBrace, .Print,
        .StringLiteral "no", .SemiColon, .RightBrace, .EndOfFile] =
      .ok (.Program [.Variable "x" (.Number 1),
        .IfElse (.Identifier "x") [.Print (.StringLiteral "yes")]
          [.Print (.StringLiteral "no")]]) ∧
    interpret [] []
        (.Program [.Variable "x" (.Number 1),
          .IfElse (.Identifier "x") [.Print (.StringLiteral "yes")]
            [.Print (.StringLiteral "no")]]) =
      (.error "Unexpected AST node", []) := by
  refine ⟨?_, ?_, ?_⟩
  · simp +decide [tokenize, tokenizeChars, tokenize_step, is_ident_char,
      keyword_token, digits_val, i32_max]
  · rw [parse, parse_program.eq_def]
    simp [parse_program.eq_def, parse_statement.eq_def,
      parse_print_statement.eq_def, parse_variable_declaration.eq_def,
      parse_if_statement.eq_def, parse_block.eq_def,
      parse_expression.eq_def, expect_token, expect_identifier,
      parse_term.eq_def, parse_factor.eq_def, parse_term_ops.eq_def,
      parse_expression_ops.eq_def, is_expression_op, current_token,
      next_token, Except.map]
  · simp [interpret.eq_def, interpret_statements.eq_def,
      evaluate_expression, env_insert, bind, Except.bind]

/-! ## Claim C6 -/

/-- C6: the expression grammar has a single flat precedence level with
left-to-right association.  For any two operators `o1`, `o2` of the
nine-operator expression loop (excluding `==`/`!=`, which the grammar
additionally re-parses inside `term` — the documented quirk),
`x o1 y o2 z` parses as `(x o1 y) o2 z`; in particular
`let a = 2; let b = 3; print a + b * 2;` parses `a + b * 2` as
`(a + b) * 2` and the run prints the single line `10`, not the `8` that
conventional precedence would give. -/
theorem claim_C6_flat_precedence :
    (∀ (o1 o2 : Token) (x y z : Int),
      is_expression_op o1 → is_expression_op o2 →
      o1 ≠ .Equal → o1 ≠ .NotEqual → o2 ≠ .Equal → o2 ≠ .NotEqual →
      parse [.Print, .Number x, o1, .Number y, o2, .Number z, .SemiColon,
          .EndOfFile] =
        .ok (.Program [.Print (.BinaryOperation
          (.BinaryOperation (.Number x) o1 (.Number y)) o2 (.Number z))])) ∧
    tokenize "let a = 2; let b = 3; print a + b * 2;" =
      some [.Let, .Identifier "a", .Equal, .Number 2, .SemiColon,
        .Let, .Identifier "b", .Equal, .Number 3, .SemiColon,
        .Print, .Identifier "a", .Plus, .Identifier "b", .Asterisk, .Number 2,
        .SemiColon, .EndOfFile] ∧
    parse [.Let, .Identifier "a", .Equal, .Number 2, .SemiColon,
        .Let, .Identifier "b", .Equal, .Number 3, .SemiColon,
        .Print, .Identifier "a", .Plus, .Identifier "b", .Asterisk, .Number 2,
        .SemiColon, .EndOfFile] =
      .ok (.Program [.Variable "a" (.Number 2), .Variable "b" (.Number 3),
        .Print (.BinaryOperation
          (.BinaryOperation (.Identifier "a") .Plus (.Identifier "b"))
          .Asterisk (.Number 2))]) ∧
    interpret [] []
        (.Program [.Variable "a" (.Number 2), .Variable "b" (.Number 3),
          .Print (.BinaryOperation
            (.BinaryOperation (.Identifier "a") .Plus (.Identifier "b"))
            .Asterisk (.Number 2))]) =
      (.ok [("b", .Number 3), ("a", .Number 2)], ["10"]) := by
  refine ⟨?_, ?_, ?_, ?_⟩
  · intro o1 o2 x y z h1 h2 h1e h1n h2e h2n
    rw [parse, parse_program.eq_def]
    simp +decide [parse_program.eq_def, parse_statement.eq_def,
      parse_print_statement.eq_def, parse_expression.eq_def, expect_token,
      expect_identifier, parse_term.eq_def, parse_factor.eq_def,
      parse_term_ops.eq_def, parse_expression_ops.eq_def,
      current_token, next_token, Except.map, h1, h2, h1e, h1n, h2e, h2n]
  · simp +decide [tokenize, tokenizeChars, tokenize_step, is_ident_char,
      keyword_token, digits_val, i32_max]
  · rw [parse, parse_program.eq_def]
    simp [parse_program.eq_def, parse_statement.eq_def,
      parse_print_statement.eq_def, parse_variable_declaration.eq_def,
      parse_expression.eq_def, expect_token, expect_identifier,
      parse_term.eq_def, parse_factor.eq_def, parse_term_ops.eq_def,
      parse_expression_ops.eq_def, is_expression_op, current_token,
      next_token, Except.map]
  · simp +decide [interpret.eq_def, interpret_statements.eq_def,
      evaluate_expression, evaluate_binary_operation, evaluate_addition,
      evaluate_multiplication, stringify_value, env_insert, List.lookup,
      bind, Except.bind, in_i32, i32_min, i32_max]

/-- C6, witness: the universal flat-precedence conjunct instantiated at
`1 + 2 * 3`, which parses as `(1 + 2) * 3`. -/
theorem claim_C6_witness :
    parse [.Print, .Number 1, .Plus, .Number 2, .Asterisk, .Number 3,
        .SemiColon, .EndOfFile] =
      .ok (.Program [.Print (.BinaryOperation
        (.BinaryOperation (.Number 1) .Plus (.Number 2)) .Asterisk
        (.Number 3))]) :=
  claim_C6_flat_precedence.1 .Plus .Asterisk 1 2 3 (by decide) (by decide)
    (by decide) (by decide) (by decide) (by decide)

/-! ## Claim C7 -/

/-- C7, counterexample: the claim says a scanned word is checked
against exactly the keyword set `{let, print, if, else}`, every other
word becoming an identifier.  But the scanner's keyword table also
contains `fn` (→ `Fn`) and `elif` (→ `IfElse`), so the words `fn` and
`elif` do NOT become identifier tokens. -/
theorem claim_C7_counterexample :
    tokenize "fn" = some [.Fn, .EndOfFile] ∧
    tokenize "elif" = some [.IfElse, .EndOfFile] ∧
    Token.Fn ≠ .Identifier "fn" ∧ Token.IfElse ≠ .Identifier "elif" := by
  refine ⟨?_, ?_, by decide, by decide⟩ <;>
    simp +decide [tokenize, tokenizeChars, tokenize_step, is_ident_char,
      keyword_token]

/-- C7, amended: every maximal letter-started word is scanned by
maximal munch and its completed text is checked against exactly the
keyword set `{let, print, fn, if, else, elif}`; any other completed
text becomes an identifier token carrying that text. -/
theorem claim_C7_amended :
    (∀ (c : Char) (cs rest : List Char), c.isAlpha = true →
      (∀ x ∈ cs, is_ident_char x = true) →
      (∀ d, rest.head? = some d → is_ident_char d = false) →
      tokenizeChars (c :: (cs ++ rest)) =
        (tokenizeChars rest).map (keyword_token (String.mk (c :: cs)) :: ·)) ∧
    (∀ s : String, keyword_token s = .Identifier s ↔
      s ∉ (["let", "print", "fn", "if", "else", "elif"] : List String)) := by
  refine ⟨fun c cs rest h hcs hrest =>
    tokenizeChars_word c cs rest h hcs hrest, fun s => ?_⟩
  constructor
  · intro h
    unfold keyword_token at h
    split_ifs at h with h1 h2 h3 h4 h5 h6
    simp_all
  · intro h
    simp only [List.mem_cons, List.not_mem_nil, or_false, not_or] at h
    obtain ⟨n1, n2, n3, n4, n5, n6⟩ := h
    simp [keyword_token, n1, n2, n3, n4, n5, n6]

/-- C7, witness: the amended scanning rule applied to the word `fo`,
which is no keyword and scans to `Identifier "fo"`. -/
theorem claim_C7_witness :
    tokenizeChars ('f' :: (['o'] ++ [])) =
      (tokenizeChars []).map (keyword_token (String.mk ('f' :: ['o'])) :: ·) :=
  claim_C7_amended.1 'f' ['o'] [] (by decide) (by decide)
    (fun d hd => by simp at hd)

/-! ## Claim C9 -/

/-- If no closing brace ever appears from the cursor onwards, the
block-body loop of `parse_if_statement` runs out of statements and
propagates a parse error: each successful statement strictly advances
the cursor inside the list, so the loop reaches the terminal
end-of-input token, whose statement dispatch fails. -/
theorem parse_block_no_rbrace :
    ∀ (n : Nat) (ts : List Token) (i : Nat) (h : i < ts.length),
      ts.length - i ≤ n →
      (∀ j, i ≤ j → j < ts.length → ts.getD j .EndOfFile ≠ .RightBrace) →
      ∃ e, parse_block ts i h = .error e := by
  intro n
  induction n with
  | zero => intro ts i h hn hno; omega
  | succ n ih =>
    intro ts i h hn hno
    rw [parse_block.eq_def]
    rw [if_neg (show ¬(current_token ts i = Token.RightBrace) from
      hno i (le_refl i) h)]
    cases hps : parse_statement ts i with
    | error e => exact ⟨e, rfl⟩
    | ok r =>
      obtain ⟨s, j, hj⟩ := r
      obtain ⟨e, he⟩ := ih ts j hj.2 (by omega)
        (fun k hk1 hk2 => hno k (by omega) hk2)
      exact ⟨e, by simp [he]⟩

/-- C9: for every token sequence whose if-block body never closes (no
`RightBrace` before the terminal `EndOfFile`), parsing terminates with
a parse error — the embedded parser is a total function, mirroring the
strictly advancing cursor of the Rust loops — and returns no (partial)
AST. -/
theorem claim_C9_unterminated_block (body : List Token)
    (hno : Token.RightBrace ∉ body) :
    ∃ e, parse ([.If, .Number 1, .LeftBrace] ++ body ++ [.EndOfFile]) =
      .error e := by
  set ts : List Token :=
    [Token.If, Token.Number 1, Token.LeftBrace] ++ body ++ [Token.EndOfFile]
    with hts
  have hlen : ts.length = body.length + 4 := by simp [hts]
  have hno' : ∀ j, 3 ≤ j → j < ts.length → ts.getD j .EndOfFile ≠ .RightBrace := by
    intro j hj3 hjlen
    rw [hlen] at hjlen
    obtain ⟨k, rfl⟩ : ∃ k, j = k + 3 := ⟨j - 3, by omega⟩
    have hk : ts.getD (k + 3) .EndOfFile =
        (body ++ [Token.EndOfFile]).getD k .EndOfFile := by
      simp only [hts, List.cons_append, List.nil_append, List.getD_cons_succ]
    rw [hk]
    by_cases hkb : k < body.length
    · rw [List.getD_append body [Token.EndOfFile] Token.EndOfFile k hkb]
      rw [List.getD_eq_getElem body Token.EndOfFile hkb]
      intro hmem
      exact hno (hmem ▸ List.getElem_mem hkb)
    · rw [List.getD_append_right body [Token.EndOfFile] Token.EndOfFile k
        (by omega)]
      cases hkk : k - body.length with
      | zero => simp
      | succ m => simp [List.getD]
  obtain ⟨e, he⟩ := parse_block_no_rbrace ts.length ts 3
    (by rw [hlen]; omega) (by omega) hno'
  refine ⟨e, ?_⟩
  have h0 : current_token ts 0 = .If := rfl
  have h1 : current_token ts 1 = .Number 1 := rfl
  have h2 : current_token ts 2 = .LeftBrace := rfl
  have hb0 : 0 < ts.length - 1 := by rw [hlen]; omega
  have hb1 : 1 < ts.length - 1 := by rw [hlen]; omega
  have hb2 : 2 < ts.length - 1 := by rw [hlen]; omega
  have hp2 : (1 : Nat) < 2 ∧ 2 < ts.length := ⟨by omega, by rw [hlen]; omega⟩
  have hfac : parse_factor ts 1 = .ok (.Number 1, ⟨2, hp2⟩) := by
    rw [parse_factor.eq_def, h1]
    simp only [next_token]
    rw [dif_pos hb1]
    rfl
  have hterm : parse_term ts 1 = .ok (.Number 1, ⟨2, hp2⟩) := by
    rw [parse_term.eq_def, hfac]
    have htops : parse_term_ops ts (.Number 1) 2 hp2.2 =
        .ok (.Number 1, ⟨2, le_refl 2, hp2.2⟩) := by
      rw [parse_term_ops.eq_def, h2]
      simp +decide only [reduceIte]
    simp only [htops]
  have hexpr : parse_expression ts 1 = .ok (.Number 1, ⟨2, hp2⟩) := by
    rw [parse_expression.eq_def, hterm]
    have hops : parse_expression_ops ts (.Number 1) 2 hp2.2 =
        .ok (.Number 1, ⟨2, le_refl 2, hp2.2⟩) := by
      rw [parse_expression_ops.eq_def]
      rw [if_neg (show ¬ is_expression_op (current_token ts 2) from by
        rw [h2]; decide)]
    simp only [hops]
  have hif : parse_if_statement ts 0 = .error e := by
    rw [parse_if_statement.eq_def]
    have hex0 : expect_token ts .If 0 =
        .ok ⟨1, by omega, by rw [hlen]; omega⟩ := by
      rw [expect_token, if_pos h0, next_token, dif_pos hb0]
    rw [hex0]
    simp only [hexpr]
    have hex2 : expect_token ts .LeftBrace 2 =
        .ok ⟨3, by omega, by rw [hlen]; omega⟩ := by
      rw [expect_token, if_pos h2, next_token, dif_pos hb2]
    simp only [hex2]
    simp only [he]
  rw [parse, parse_program.eq_def]
  rw [if_neg (show ¬ current_token ts 0 = .EndOfFile from by rw [h0]; decide)]
  have hst : parse_statement ts 0 = .error e := by
    rw [parse_statement.eq_def, h0]
    exact hif
  rw [hst]
  rfl

/-- C9, witness: the unterminated block `if 1 { print 7;` (as tokens)
parses to an error. -/
theorem claim_C9_witness :
    ∃ e, parse ([.If, .Number 1, .LeftBrace] ++
      [.Print, .Number 7, .SemiColon] ++ [.EndOfFile]) = .error e :=
  claim_C9_unterminated_block [.Print, .Number 7, .SemiColon] (by decide)

/-! ## Claim C3 -/

/-- C3: because the lexer emits the same `Equal` token for a lone `=`
as for the assignment marker, the parser accepts a lone `=` as the
equality operator inside expressions.  For every program
`let x = a = b;` with decimal numerals `a` and `b` (characters
`d1 :: ds1` and `d2 :: ds2`, values within `i32`), scan-then-parse
succeeds with a `BinaryOperation` whose operator is the `Equal` token,
and evaluation binds `x` to 1 when the values agree and 0 otherwise.
Conversely a source-level `==` in expression position yields two
consecutive `Equal` tokens, and the parse fails (`parse_factor` meets
the second `Equal`). -/
theorem claim_C3_lone_equals_is_equality :
    (∀ (d1 : Char) (ds1 : List Char) (d2 : Char) (ds2 : List Char),
      d1.isDigit = true → (∀ x ∈ ds1, x.isDigit = true) →
      d2.isDigit = true → (∀ x ∈ ds2, x.isDigit = true) →
      (digits_val (d1 :: ds1) : Int) ≤ i32_max →
      (digits_val (d2 :: ds2) : Int) ≤ i32_max →
      ("let x = " ++ String.mk (d1 :: ds1) ++ " = " ++ String.mk (d2 :: ds2)
          ++ ";").data =
        'l' :: 'e' :: 't' :: ' ' :: 'x' :: ' ' :: '=' :: ' ' ::
          (d1 :: (ds1 ++ (' ' :: '=' :: ' ' :: (d2 :: (ds2 ++ [';']))))) ∧
      tokenizeChars ('l' :: 'e' :: 't' :: ' ' :: 'x' :: ' ' :: '=' :: ' ' ::
          (d1 :: (ds1 ++ (' ' :: '=' :: ' ' :: (d2 :: (ds2 ++ [';'])))))) =
        some [.Let, .Identifier "x", .Equal, .Number (digits_val (d1 :: ds1)),
          .Equal, .Number (digits_val (d2 :: ds2)), .SemiColon, .EndOfFile] ∧
      parse [.Let, .Identifier "x", .Equal, .Number (digits_val (d1 :: ds1)),
          .Equal, .Number (digits_val (d2 :: ds2)), .SemiColon, .EndOfFile] =
        .ok (.Program [.Variable "x" (.BinaryOperation
          (.Number (digits_val (d1 :: ds1))) .Equal
          (.Number (digits_val (d2 :: ds2))))]) ∧
      interpret [] [] (.Program [.Variable "x" (.BinaryOperation
          (.Number (digits_val (d1 :: ds1))) .Equal
          (.Number (digits_val (d2 :: ds2))))]) =
        (.ok [("x", .Number (if (digits_val (d1 :: ds1) : Int) =
          (digits_val (d2 :: ds2) : Int) then 1 else 0))], [])) ∧
    (∀ a b : Int, parse [.Let, .Identifier "x", .Equal, .Number a, .Equal,
        .Equal, .Number b, .SemiColon, .EndOfFile] =
      .error "Unexpected token") := by
  constructor
  · intro d1 ds1 d2 ds2 h1 hds1 h2 hds2 hfit1 hfit2
    refine ⟨?_, ?_, ?_, ?_⟩
    · simp [String.data_append]
    · have hpre : ∀ R : List Char,
          tokenizeChars ('l' :: 'e' :: 't' :: ' ' :: 'x' :: ' ' :: '=' :: ' ' :: R) =
            (tokenizeChars R).map
              (fun ts => .Let :: .Identifier "x" :: .Equal :: ts) := by
        intro R
        simp +decide [tokenizeChars, tokenize_step, is_ident_char,
          keyword_token, Option.map_map, Function.comp]
        rfl
      have hmid : ∀ R : List Char,
          tokenizeChars (' ' :: '=' :: ' ' :: R) =
            (tokenizeChars R).map (.Equal :: ·) := by
        intro R
        simp +decide [tokenizeChars, tokenize_step]
      have hend : tokenizeChars [';'] = some [.SemiColon, .EndOfFile] := by
        simp +decide [tokenizeChars, tokenize_step]
      rw [hpre, tokenizeChars_number d1 ds1 _ h1 hds1
          (head_not_digit ' ' (by decide) _) hfit1,
        hmid, tokenizeChars_number d2 ds2 _ h2 hds2
          (head_not_digit ';' (by decide) _) hfit2,
        hend]
      rfl
    · rw [parse, parse_program.eq_def]
      simp [parse_program.eq_def, parse_statement.eq_def,
        parse_variable_declaration.eq_def, parse_expression.eq_def,
        expect_token, expect_identifier, parse_term.eq_def,
        parse_factor.eq_def, parse_term_ops.eq_def,
        parse_expression_ops.eq_def, is_expression_op, current_token,
        next_token, Except.map]
    · simp [interpret.eq_def, interpret_statements.eq_def,
        evaluate_expression, evaluate_binary_operation, evaluate_equal,
        env_insert, bind, Except.bind, apply_ite]
      split_ifs <;> rfl
  · intro a b
    rw [parse, parse_program.eq_def]
    simp [parse_program.eq_def, parse_statement.eq_def,
      parse_variable_declaration.eq_def, parse_expression.eq_def,
      expect_token, expect_identifier, parse_term.eq_def,
      parse_factor.eq_def, parse_term_ops.eq_def,
      parse_expression_ops.eq_def, is_expression_op, current_token,
      next_token, Except.map]

/-- C3, witness: the scan-parse-evaluate chain instantiated at the
program `let x = 3 = 3;`, which binds `x` to 1. -/
theorem claim_C3_witness :
    tokenizeChars ('l' :: 'e' :: 't' :: ' ' :: 'x' :: ' ' :: '=' :: ' ' ::
        ('3' :: ([] ++ (' ' :: '=' :: ' ' :: ('3' :: ([] ++ [';'])))))) =
      some [.Let, .Identifier "x", .Equal, .Number (digits_val ('3' :: [])),
        .Equal, .Number (digits_val ('3' :: [])), .SemiColon, .EndOfFile] ∧
    interpret [] [] (.Program [.Variable "x" (.BinaryOperation
        (.Number (digits_val ('3' :: []))) .Equal
        (.Number (digits_val ('3' :: []))))]) =
      (.ok [("x", .Number (if (digits_val ('3' :: []) : Int) =
        (digits_val ('3' :: []) : Int) then 1 else 0))], []) :=
  ⟨(claim_C3_lone_equals_is_equality.1 '3' [] '3' [] (by decide) (by decide)
      (by decide) (by decide) (by decide) (by decide)).2.1,
    (claim_C3_lone_equals_is_equality.1 '3' [] '3' [] (by decide) (by decide)
      (by decide) (by decide) (by decide) (by decide)).2.2.2⟩

/-! ## Claim C10 -/

/-- A successful `List.lookup` result is a stored binding. -/
theorem lookup_mem (k : String) (env : Env) (v : ASTNode)
    (h : List.lookup k env = some v) : (k, v) ∈ env := by
  induction env with
  | nil => simp [List.lookup] at h
  | cons p rest ih =>
    obtain ⟨a, b⟩ := p
    simp only [List.lookup] at h
    split at h
    · next hba =>
      injection h with h'
      subst h'
      have : k = a := by simpa using hba
      subst this
      exact List.mem_cons_self _ _
    · exact List.mem_cons_of_mem _ (ih h)

theorem evaluate_binary_operation_literal (l : ASTNode) (op : Token)
    (r v : ASTNode) (h : evaluate_binary_operation l op r = .ok v) :
    is_literal_value v := by
  cases op <;>
    simp only [evaluate_binary_operation, evaluate_addition,
      evaluate_subtraction, evaluate_multiplication, evaluate_division,
      evaluate_modulo, evaluate_equal, evaluate_not_equal] at h <;>
    (try split at h) <;>
    (try split_ifs at h) <;>
    first
    | (injection h with h'; subst h'; trivial)
    | (cases h)

theorem evaluate_expression_literal (env : Env) (henv : env_invariant env)
    (e v : ASTNode) (h : evaluate_expression env e = .ok v) :
    is_literal_value v := by
  cases e with
  | BinaryOperation l op r =>
    simp only [evaluate_expression, bind, Except.bind] at h
    cases hl : evaluate_expression env l with
    | error e1 => rw [hl] at h; cases h
    | ok lv =>
      rw [hl] at h
      cases hr : evaluate_expression env r with
      | error e2 => rw [hr] at h; cases h
      | ok rv =>
        rw [hr] at h
        exact evaluate_binary_operation_literal lv op rv v h
  | Identifier name =>
    simp only [evaluate_expression] at h
    cases hl : List.lookup name env with
    | none => rw [hl] at h; cases h
    | some w =>
      rw [hl] at h
      injection h with h'
      subst h'
      exact henv _ (lookup_mem name env _ hl)
  | Number m =>
    simp only [evaluate_expression] at h
    injection h with h'
    subst h'
    trivial
  | StringLiteral s =>
    simp only [evaluate_expression] at h
    injection h with h'
    subst h'
    trivial
  | Program stmts => simp only [evaluate_expression] at h; cases h
  | Assignment a b => simp only [evaluate_expression] at h; cases h
  | Variable a b => simp only [evaluate_expression] at h; cases h
  | Print a => simp only [evaluate_expression] at h; cases h
  | If a b => simp only [evaluate_expression] at h; cases h
  | IfElse a b c => simp only [evaluate_expression] at h; cases h

theorem env_invariant_insert (env : Env) (k : String) (v : ASTNode)
    (henv : env_invariant env) (hv : is_literal_value v) :
    env_invariant (env_insert env k v) := by
  intro p hp
  simp only [env_insert, List.mem_cons, List.mem_filter] at hp
  rcases hp with rfl | ⟨hp, _⟩
  · exact hv
  · exact henv p hp

/-- Joint size-bounded induction for `interpret` and its statement
loop: executing any statement from an environment of literal values
leaves an environment of literal values. -/
theorem interpret_inv_aux :
    ∀ n : Nat,
      (∀ (a : ASTNode) (env : Env) (out : List String) (env' : Env)
        (out' : List String), sizeOf a < n → env_invariant env →
        interpret env out a = (.ok env', out') → env_invariant env') ∧
      (∀ (l : List ASTNode) (env : Env) (out : List String) (env' : Env)
        (out' : List String), sizeOf l < n → env_invariant env →
        interpret_statements env out l = (.ok env', out') →
        env_invariant env') := by
  intro n
  induction n with
  | zero =>
    exact ⟨fun a _ _ _ _ hs => absurd hs (by omega),
      fun l _ _ _ _ hs => absurd hs (by omega)⟩
  | succ n ih =>
    constructor
    · intro a env out env' out' hs henv h
      cases a with
      | Program stmts =>
        simp only [interpret] at h
        refine ih.2 stmts env out env' out' ?_ henv h
        simp only [ASTNode.Program.sizeOf_spec] at hs
        omega
      | Variable name value =>
        simp only [interpret] at h
        cases hv : evaluate_expression env value with
        | error e1 => simp only [hv] at h; cases h
        | ok w =>
          simp only [hv] at h
          injection h with h1 h2
          injection h1 with h1
          subst h1
          exact env_invariant_insert env name w henv
            (evaluate_expression_literal env henv value w hv)
      | Assignment name value =>
        simp only [interpret] at h
        cases hv : evaluate_expression env value with
        | error e1 => simp only [hv] at h; cases h
        | ok w =>
          simp only [hv] at h
          injection h with h1 h2
          injection h1 with h1
          subst h1
          exact env_invariant_insert env name w henv
            (evaluate_expression_literal env henv value w hv)
      | Print expr =>
        simp only [interpret] at h
        cases hv : evaluate_expression env expr with
        | error e1 => simp only [hv] at h; cases h
        | ok w =>
          simp only [hv] at h
          cases hsv : stringify_value w with
          | error e1 => simp only [hsv] at h; cases h
          | ok line =>
            simp only [hsv] at h
            injection h with h1 h2
            injection h1 with h1
            subst h1
            exact henv
      | Identifier name => simp only [interpret] at h; cases h
      | Number m => simp only [interpret] at h; cases h
      | StringLiteral st => simp only [interpret] at h; cases h
      | BinaryOperation x o y => simp only [interpret] at h; cases h
      | If c t => simp only [interpret] at h; cases h
      | IfElse c t f => simp only [interpret] at h; cases h
    · intro l env out env' out' hs henv h
      cases l with
      | nil =>
        simp only [interpret_statements] at h
        injection h with h1 h2
        injection h1 with h1
        subst h1
        exact henv
      | cons s rest =>
        simp only [interpret_statements] at h
        rcases hstep : interpret env out s with ⟨res, out2⟩
        simp only [hstep] at h
        cases res with
        | ok env2 =>
          have hsz : sizeOf s < n ∧ sizeOf rest < n := by
            simp only [List.cons.sizeOf_spec] at hs
            omega
          have henv2 := ih.1 s env out env2 out2 hsz.1 henv hstep
          exact ih.2 rest env2 out2 env' out' hsz.2 henv2 h
        | error e1 => cases h

/-- C10: the environment invariant.  Every statement execution
preserves the property that all stored values are number or string
literals (the values come from `evaluate_expression`, whose successful
results are always literals); declaration and assignment overwrite the
binding of the given name, so `let x = 1; let x = 2; print x;` leaves
exactly the last value and prints `2`. -/
theorem claim_C10_env_invariant :
    (∀ (a : ASTNode) (env : Env) (out : List String) (env' : Env)
      (out' : List String), env_invariant env →
      interpret env out a = (.ok env', out') → env_invariant env') ∧
    (∀ (env : Env) (k : String) (v : ASTNode),
      List.lookup k (env_insert env k v) = some v) ∧
    tokenize "let x = 1; let x = 2; print x;" =
      some [.Let, .Identifier "x", .Equal, .Number 1, .SemiColon,
        .Let, .Identifier "x", .Equal, .Number 2, .SemiColon,
        .Print, .Identifier "x", .SemiColon, .EndOfFile] ∧
    parse [.Let, .Identifier "x", .Equal, .Number 1, .SemiColon,
        .Let, .Identifier "x", .Equal, .Number 2, .SemiColon,
        .Print, .Identifier "x", .SemiColon, .EndOfFile] =
      .ok (.Program [.Variable "x" (.Number 1), .Variable "x" (.Number 2),
        .Print (.Identifier "x")]) ∧
    interpret [] [] (.Program [.Variable "x" (.Number 1),
        .Variable "x" (.Number 2), .Print (.Identifier "x")]) =
      (.ok [("x", .Number 2)], ["2"]) := by
  refine ⟨fun a env out env' out' henv h =>
    (interpret_inv_aux (sizeOf a + 1)).1 a env out env' out'
      (by omega) henv h, ?_, ?_, ?_, ?_⟩
  · intro env k v
    simp [env_insert, List.lookup]
  · simp +decide [tokenize, tokenizeChars, tokenize_step, is_ident_char,
      keyword_token, digits_val, i32_max]
  · rw [parse, parse_program.eq_def]
    simp [parse_program.eq_def, parse_statement.eq_def,
      parse_print_statement.eq_def, parse_variable_declaration.eq_def,
      parse_expression.eq_def, expect_token, expect_identifier,
      parse_term.eq_def, parse_factor.eq_def, parse_term_ops.eq_def,
      parse_expression_ops.eq_def, is_expression_op, current_token,
      next_token, Except.map]
  · simp +decide [interpret.eq_def, interpret_statements.eq_def,
      evaluate_expression, stringify_value, env_insert, List.lookup,
      bind, Except.bind]

/-- C10, witness: the preservation statement applied to executing
`let x = 1` from the empty environment. -/
theorem claim_C10_witness : env_invariant [("x", ASTNode.Number 1)] :=
  claim_C10_env_invariant.1 (.Variable "x" (.Number 1)) [] []
    [("x", .Number 1)] []
    (fun p hp => absurd hp (List.not_mem_nil p))
    (by simp [interpret, evaluate_expression, env_insert])

/-! ## Claim C5 -/

/-- The keyword table never yields the end-of-input token. -/
theorem keyword_token_ne_eof (s : String) : keyword_token s ≠ .EndOfFile := by
  unfold keyword_token
  split_ifs <;> simp

theorem tokenize_step_other (c : Char) (rest : List Char)
    (hq : c ≠ '\x22') (hx : c ≠ '!') (ha : c.isAlpha = false)
    (hd : c.isDigit = false) :
    ∃ t : Option Token, tokenize_step c rest = some (t, ⟨rest, le_refl _⟩) ∧
      ∀ tk, t = some tk → tk ≠ .EndOfFile := by
  unfold tokenize_step
  by_cases h1 : c = ' ' ∨ c = '\t' ∨ c = '\n' ∨ c = '\r'
  · rw [if_pos h1]
    exact ⟨none, rfl, by simp⟩
  rw [if_neg h1]
  by_cases h2 : c = '='
  · rw [if_pos h2]
    exact ⟨some .Equal, rfl, fun tk htk => by injection htk with hh; rw [← hh]; decide⟩
  rw [if_neg h2, if_neg hx]
  by_cases h3 : c = '+'
  · rw [if_pos h3]
    exact ⟨some .Plus, rfl, fun tk htk => by injection htk with hh; rw [← hh]; decide⟩
  rw [if_neg h3]
  by_cases h4 : c = '-'
  · rw [if_pos h4]
    exact ⟨some .Minus, rfl, fun tk htk => by injection htk with hh; rw [← hh]; decide⟩
  rw [if_neg h4]
  by_cases h5 : c = '*'
  · rw [if_pos h5]
    exact ⟨some .Asterisk, rfl, fun tk htk => by injection htk with hh; rw [← hh]; decide⟩
  rw [if_neg h5]
  by_cases h6 : c = '/'
  · rw [if_pos h6]
    exact ⟨some .Slash, rfl, fun tk htk => by injection htk with hh; rw [← hh]; decide⟩
  rw [if_neg h6]
  by_cases h7 : c = '%'
  · rw [if_pos h7]
    exact ⟨some .Modulo, rfl, fun tk htk => by injection htk with hh; rw [← hh]; decide⟩
  rw [if_neg h7]
  by_cases h8 : c = '('
  · rw [if_pos h8]
    exact ⟨some .LeftParenthesis, rfl, fun tk htk => by injection htk with hh; rw [← hh]; decide⟩
  rw [if_neg h8]
  by_cases h9 : c = ')'
  · rw [if_pos h9]
    exact ⟨some .RightParenthesis, rfl, fun tk htk => by injection htk with hh; rw [← hh]; decide⟩
  rw [if_neg h9]
  by_cases h10 : c = '\x7b'
  · rw [if_pos h10]
    exact ⟨some .LeftBrace, rfl, fun tk htk => by injection htk with hh; rw [← hh]; decide⟩
  rw [if_neg h10]
  by_cases h11 : c = '\x7d'
  · rw [if_pos h11]
    exact ⟨some .RightBrace, rfl, fun tk htk => by injection htk with hh; rw [← hh]; decide⟩
  rw [if_neg h11]
  by_cases h12 : c = '['
  · rw [if_pos h12]
    exact ⟨some .LeftBracket, rfl, fun tk htk => by injection htk with hh; rw [← hh]; decide⟩
  rw [if_neg h12]
  by_cases h13 : c = ']'
  · rw [if_pos h13]
    exact ⟨some .RightBracket, rfl, fun tk htk => by injection htk with hh; rw [← hh]; decide⟩
  rw [if_neg h13]
  by_cases h14 : c = '<'
  · rw [if_pos h14]
    exact ⟨some .LessThan, rfl, fun tk htk => by injection htk with hh; rw [← hh]; decide⟩
  rw [if_neg h14]
  by_cases h15 : c = '>'
  · rw [if_pos h15]
    exact ⟨some .GreaterThan, rfl, fun tk htk => by injection htk with hh; rw [← hh]; decide⟩
  rw [if_neg h15]
  by_cases h16 : c = ';'
  · rw [if_pos h16]
    exact ⟨some .SemiColon, rfl, fun tk htk => by injection htk with hh; rw [← hh]; decide⟩
  rw [if_neg h16]
  by_cases h17 : c = ','
  · rw [if_pos h17]
    exact ⟨some .Comma, rfl, fun tk htk => by injection htk with hh; rw [← hh]; decide⟩
  rw [if_neg h17, if_neg hq]
  rw [if_neg (show ¬(c.isAlpha = true) by simp [ha])]
  rw [if_neg (show ¬(c.isDigit = true) by simp [hd])]
  exact ⟨some .Unknown, rfl, fun tk htk => by injection htk with hh; rw [← hh]; decide⟩

theorem eof_shape_cons (t : Token) (ht : t ≠ .EndOfFile)
    (o : Option (List Token)) (ts : List Token)
    (h : o.map (t :: ·) = some ts)
    (hrec : ∀ ts2, o = some ts2 →
      ts2.getLast? = some Token.EndOfFile ∧ Token.EndOfFile ∉ ts2.dropLast) :
    ts.getLast? = some Token.EndOfFile ∧ Token.EndOfFile ∉ ts.dropLast := by
  cases o with
  | none => cases h
  | some ts2 =>
    obtain ⟨hL, hN⟩ := hrec ts2 rfl
    injection h with h'
    subst h'
    have hne : ts2 ≠ [] := by
      intro hnil
      rw [hnil] at hL
      simp at hL
    constructor
    · cases ts2 with
      | nil => exact absurd rfl hne
      | cons a as => simpa [List.getLast?_cons_cons] using hL
    · rw [List.dropLast_cons_of_ne_nil hne]
      simp only [List.mem_cons, not_or]
      exact ⟨fun hh => ht hh.symm, hN⟩

/-- Mapping a cons over an optional token list preserves definedness. -/
theorem option_map_isSome (f : List Token → List Token)
    (o : Option (List Token)) : (o.map f).isSome = o.isSome := by
  cases o <;> rfl

theorem tokenizeChars_shape :
    ∀ (n : Nat) (cs : List Char), cs.length ≤ n →
      ((tokenizeChars cs).isSome = digit_runs_fit cs) ∧
      (∀ ts, tokenizeChars cs = some ts →
        ts.getLast? = some Token.EndOfFile ∧ Token.EndOfFile ∉ ts.dropLast) := by
  intro n
  induction n with
  | zero =>
    intro cs hlen
    have hnil : cs = [] := List.length_eq_zero.mp (by omega)
    subst hnil
    have h0 : tokenizeChars ([] : List Char) = some [Token.EndOfFile] := by
      simp [tokenizeChars]
    have h1 : digit_runs_fit ([] : List Char) = true := by
      simp [digit_runs_fit]
    refine ⟨by rw [h0, h1]; rfl, fun ts hts => ?_⟩
    rw [h0] at hts
    injection hts with h'
    subst h'
    exact ⟨rfl, by simp⟩
  | succ m ih =>
    intro cs hlen
    cases cs with
    | nil =>
      have h0 : tokenizeChars ([] : List Char) = some [Token.EndOfFile] := by
        simp [tokenizeChars]
      have h1 : digit_runs_fit ([] : List Char) = true := by
        simp [digit_runs_fit]
      refine ⟨by rw [h0, h1]; rfl, fun ts hts => ?_⟩
      rw [h0] at hts
      injection hts with h'
      subst h'
      exact ⟨rfl, by simp⟩
    | cons c rest =>
      have hrl : rest.length ≤ m := by
        simp only [List.length_cons] at hlen
        omega
      by_cases hq : c = '\x22'
      · subst hq
        have hstep : tokenizeChars ('\x22' :: rest) =
            (tokenizeChars ((rest.dropWhile (fun ch => ch ≠ '\x22')).drop 1)).map
              (.StringLiteral (String.mk
                (rest.takeWhile (fun ch => ch ≠ '\x22'))) :: ·) := by
          rw [tokenizeChars.eq_def]
          simp +decide [tokenize_step]
        have hfit : digit_runs_fit ('\x22' :: rest) =
            digit_runs_fit ((rest.dropWhile (fun ch => ch ≠ '\x22')).drop 1) := by
          rw [digit_runs_fit.eq_def]
          simp +decide
        have hlen2 : ((rest.dropWhile (fun ch => ch ≠ '\x22')).drop 1).length ≤ m := by
          have h1 := (List.dropWhile_suffix
            (l := rest) (fun ch => decide (ch ≠ '\x22'))).sublist.length_le
          have h2 := List.length_drop 1
            (rest.dropWhile (fun ch => decide (ch ≠ '\x22')))
          omega
        obtain ⟨ihsome, iheof⟩ := ih _ hlen2
        refine ⟨?_, fun ts hts => ?_⟩
        · rw [hstep, hfit, option_map_isSome]
          exact ihsome
        · rw [hstep] at hts
          exact eof_shape_cons _ (by simp) _ ts hts iheof
      · by_cases hx : c = '!'
        · subst hx
          cases rest with
          | nil =>
            have hstep : tokenizeChars ['!'] =
                (tokenizeChars []).map (.Unknown :: ·) := by
              rw [tokenizeChars.eq_def]
              simp +decide [tokenize_step]
            have hfit : digit_runs_fit ['!'] = digit_runs_fit [] := by
              rw [digit_runs_fit.eq_def]
              simp +decide
            obtain ⟨ihsome, iheof⟩ := ih [] (by simp)
            refine ⟨?_, fun ts hts => ?_⟩
            · rw [hstep, hfit, option_map_isSome]
              exact ihsome
            · rw [hstep] at hts
              exact eof_shape_cons _ (by simp) _ ts hts iheof
          | cons d ds =>
            have hdl : ds.length ≤ m := by
              simp only [List.length_cons] at hrl
              omega
            by_cases hde : d = '='
            · subst hde
              have hstep : tokenizeChars ('!' :: '=' :: ds) =
                  (tokenizeChars ds).map (.NotEqual :: ·) := by
                rw [tokenizeChars.eq_def]
                have : tokenize_step '!' ('=' :: ds) =
                    some (some .NotEqual, ⟨ds, by simp⟩) := by
                  unfold tokenize_step
                  simp +decide
                simp only [this]
              have hfit : digit_runs_fit ('!' :: '=' :: ds) =
                  digit_runs_fit ds := by
                rw [digit_runs_fit.eq_def]
                simp +decide
              obtain ⟨ihsome, iheof⟩ := ih ds hdl
              refine ⟨?_, fun ts hts => ?_⟩
              · rw [hstep, hfit, option_map_isSome]
                exact ihsome
              · rw [hstep] at hts
                exact eof_shape_cons _ (by simp) _ ts hts iheof
            · have hstep : tokenizeChars ('!' :: d :: ds) =
                  (tokenizeChars (d :: ds)).map (.Unknown :: ·) := by
                rw [tokenizeChars.eq_def]
                have : tokenize_step '!' (d :: ds) =
                    some (some .Unknown, ⟨d :: ds, le_refl _⟩) := by
                  unfold tokenize_step
                  simp +decide [hde]
                simp only [this]
              have hfit : digit_runs_fit ('!' :: d :: ds) =
                  digit_runs_fit (d :: ds) := by
                rw [digit_runs_fit.eq_def]
                simp +decide [hde]
              obtain ⟨ihsome, iheof⟩ := ih (d :: ds) hrl
              refine ⟨?_, fun ts hts => ?_⟩
              · rw [hstep, hfit, option_map_isSome]
                exact ihsome
              · rw [hstep] at hts
                exact eof_shape_cons _ (by simp) _ ts hts iheof
        · by_cases ha : c.isAlpha = true
          · have hmarks := alpha_ne_marks c ha
            have hstep := tokenizeChars_cons_alpha c rest ha
            have hfit : digit_runs_fit (c :: rest) =
                digit_runs_fit (rest.dropWhile is_ident_char) := by
              rw [digit_runs_fit.eq_def]
              simp [hq, hx, ha]
            have hlen2 : (rest.dropWhile is_ident_char).length ≤ m := by
              have h1 := (List.dropWhile_suffix
                (l := rest) is_ident_char).sublist.length_le
              omega
            obtain ⟨ihsome, iheof⟩ := ih _ hlen2
            refine ⟨?_, fun ts hts => ?_⟩
            · rw [hstep, hfit, option_map_isSome]
              exact ihsome
            · rw [hstep] at hts
              exact eof_shape_cons _ (keyword_token_ne_eof _) _ ts hts iheof
          · by_cases hd : c.isDigit = true
            · have hlen2 : (rest.dropWhile Char.isDigit).length ≤ m := by
                have h1 := (List.dropWhile_suffix
                  (l := rest) Char.isDigit).sublist.length_le
                omega
              obtain ⟨ihsome, iheof⟩ := ih _ hlen2
              have hfit : digit_runs_fit (c :: rest) =
                  (decide ((digits_val (c :: rest.takeWhile Char.isDigit) : Int)
                      ≤ i32_max) &&
                    digit_runs_fit (rest.dropWhile Char.isDigit)) := by
                rw [digit_runs_fit.eq_def]
                simp [hq, hx, ha, hd]
              by_cases hfits :
                  (digits_val (c :: rest.takeWhile Char.isDigit) : Int) ≤ i32_max
              · have hstep := tokenizeChars_cons_digit c rest hd hfits
                refine ⟨?_, fun ts hts => ?_⟩
                · rw [hstep, hfit, option_map_isSome]
                  simp only [hfits, decide_eq_true_eq, Bool.true_and, decide_True]
                  exact ihsome
                · rw [hstep] at hts
                  exact eof_shape_cons _ (by simp) _ ts hts iheof
              · have hstep := tokenizeChars_cons_digit_overflow c rest hd hfits
                refine ⟨?_, fun ts hts => ?_⟩
                · rw [hstep, hfit]
                  simp [hfits]
                · rw [hstep] at hts
                  cases hts
            · obtain ⟨t, hso, hne⟩ := tokenize_step_other c rest hq hx
                (by simpa using ha) (by simpa using hd)
              have hfit : digit_runs_fit (c :: rest) = digit_runs_fit rest := by
                rw [digit_runs_fit.eq_def]
                simp [hq, hx, ha, hd]
              obtain ⟨ihsome, iheof⟩ := ih rest hrl
              cases t with
              | none =>
                have hstep : tokenizeChars (c :: rest) = tokenizeChars rest := by
                  rw [tokenizeChars.eq_def]
                  simp only [hso]
                refine ⟨?_, fun ts hts => ?_⟩
                · rw [hstep, hfit]
                  exact ihsome
                · rw [hstep] at hts
                  exact iheof ts hts
              | some tk =>
                have hstep : tokenizeChars (c :: rest) =
                    (tokenizeChars rest).map (tk :: ·) := by
                  rw [tokenizeChars.eq_def]
                  simp only [hso]
                refine ⟨?_, fun ts hts => ?_⟩
                · rw [hstep, hfit, option_map_isSome]
                  exact ihsome
                · rw [hstep] at hts
                  exact eof_shape_cons _ (hne tk rfl) _ ts hts iheof

/-- C5, counterexample: the claim says scanning never fails, but the
scanner's number arm calls `parse::<i32>().unwrap()`, which panics on
the ten-character input `2147483648` (one more than `i32::MAX`). -/
theorem claim_C5_counterexample : tokenize "2147483648" = none := by
  simp +decide [tokenize, tokenizeChars, tokenize_step, digits_val, i32_max]

/-- C5, amended: scanning always terminates (the embedded scanner is a
total function — each iteration consumes at least one character); it
fails exactly when some scanned integer literal exceeds `i32::MAX`
(succeeds if and only if every maximal digit run outside strings and
identifiers fits in `i32`); and every returned token sequence ends
with exactly one terminating `EndOfFile` token: one at the end and
none anywhere before it. -/
theorem claim_C5_amended :
    (∀ cs : List Char, (tokenizeChars cs).isSome = digit_runs_fit cs) ∧
    (∀ (cs : List Char) (ts : List Token), tokenizeChars cs = some ts →
      ts.getLast? = some Token.EndOfFile ∧ Token.EndOfFile ∉ ts.dropLast) :=
  ⟨fun cs => (tokenizeChars_shape cs.length cs (le_refl _)).1,
   fun cs ts h => (tokenizeChars_shape cs.length cs (le_refl _)).2 ts h⟩

/-- C5, witness: the end-of-input shape, instantiated at scanning the
one-letter source `a`. -/
theorem claim_C5_witness :
    [Token.Identifier "a", Token.EndOfFile].getLast? =
        some Token.EndOfFile ∧
      Token.EndOfFile ∉ [Token.Identifier "a", Token.EndOfFile].dropLast :=
  claim_C5_amended.2 ['a'] [.Identifier "a", .EndOfFile]
    (by simp +decide [tokenizeChars, tokenize_step, is_ident_char,
      keyword_token])

end Netl
